import Mathlib

/-!
Verification of the admin dashboard's API-client key-case conversion and the
realtime presence/connection manager, as a shallow embedding in Lean.

Part 1: case conversion (`toCamelCase`, `toSnakeCase`, `keysToCamel`,
`keysToSnake`) and the API request error handling, from the API client module.
Part 2: the presence hook's message handlers, timers and listener registries.
-/

namespace ApiClient

/-- ASCII lowercase test, the `[a-z]` character class of the conversion regex. -/
def isLowerAscii (c : Char) : Bool := 97 ≤ c.toNat && c.toNat ≤ 122

/-- ASCII uppercase test, the `[A-Z]` character class of the conversion regex. -/
def isUpperAscii (c : Char) : Bool := 65 ≤ c.toNat && c.toNat ≤ 90

/-- `str.replace(/_([a-z])/g, (_, letter) => letter.toUpperCase())`:
scan left to right; an underscore followed by an ASCII lowercase letter is
replaced by the letter uppercased; everything else is copied. -/
def toCamelCase : List Char → List Char
  | [] => []
  | c :: rest =>
    if c = '_' then
      match rest with
      | [] => ['_']
      | d :: rest' =>
        if isLowerAscii d then d.toUpper :: toCamelCase rest'
        else '_' :: toCamelCase (d :: rest')
    else c :: toCamelCase rest

/-- `str.replace(/[A-Z]/g, letter => underscore + letter.toLowerCase())`:
each ASCII uppercase letter is replaced by an underscore followed by the
letter lowercased; everything else is copied. -/
def toSnakeCase : List Char → List Char
  | c :: rest =>
    if isUpperAscii c then '_' :: c.toLower :: toSnakeCase rest
    else c :: toSnakeCase rest
  | [] => []

/-- String wrapper for `toCamelCase`. -/
def toCamelKey (s : String) : String := ⟨toCamelCase s.data⟩

/-- String wrapper for `toSnakeCase`. -/
def toSnakeKey (s : String) : String := ⟨toSnakeCase s.data⟩

/-- A word of the key grammar: a nonempty run of ASCII lowercase letters. -/
def lowerWord (w : List Char) : Bool := !w.isEmpty && w.all isLowerAscii

/-- The snake-cased key built from a list of words: words joined by `_`. -/
def snakeOf : List (List Char) → List Char
  | [] => []
  | [w] => w
  | w :: ws => w ++ '_' :: snakeOf ws

/-- Capitalize the first letter of a word (word-boundary marker). -/
def capWord : List Char → List Char
  | [] => []
  | c :: cs => c.toUpper :: cs

/-- The camel-cased key built from a list of words: first word verbatim,
subsequent words capitalized and concatenated. -/
def camelOf : List (List Char) → List Char
  | [] => []
  | w :: ws => w ++ (ws.map capWord).flatten

/-- The tail of a snake-cased key: each word preceded by an underscore. -/
def snakeTail (ws : List (List Char)) : List Char :=
  (ws.map fun w => '_' :: w).flatten

end ApiClient

namespace Js

/-- JavaScript object property assignment `m[k] = v` on an insertion-ordered
object: an existing key keeps its position and gets the new value; a new key
is appended at the end. -/
def recordSet {α : Type} (m : List (String × α)) (k : String) (v : α) :
    List (String × α) :=
  if m.any fun p => p.1 == k then
    m.map fun p => if p.1 == k then (k, v) else p
  else m ++ [(k, v)]

/-- JavaScript object property read `m[k]`: `none` models `undefined`. -/
def recordGet {α : Type} (m : List (String × α)) (k : String) : Option α :=
  (m.find? fun p => p.1 == k).map fun p => p.2

end Js

namespace ApiClient

/-- A JSON-like runtime value: `null`, `undefined`, a primitive or other
non-plain-object value (opaque `atom`), an array, or a plain object given as
its insertion-ordered property list. -/
inductive Jval where
  | null
  | undef
  | atom (v : String)
  | arr (items : List Jval)
  | obj (fields : List (String × Jval))

/-- `Object.keys(o).reduce((acc, key) => { acc[newKey] = newVal; return acc }, {})`:
rebuild an object from its (already converted) property list by repeated
JavaScript property assignment, starting from the empty object. -/
def buildObj (fs : List (String × Jval)) : List (String × Jval) :=
  fs.foldl (fun acc p => Js.recordSet acc p.1 p.2) []

mutual

/-- `keysToCamel`: recursively convert object keys from snake_case to
camelCase; `null`/`undefined` and non-plain-object values pass through,
arrays recurse element-wise, plain objects are rebuilt key by key. -/
def keysToCamel : Jval → Jval
  | .null => .null
  | .undef => .undef
  | .atom v => .atom v
  | .arr items => .arr (keysToCamelList items)
  | .obj fields => .obj (buildObj (keysToCamelFields fields))

/-- Element-wise conversion of an array (`obj.map(item => keysToCamel(item))`). -/
def keysToCamelList : List Jval → List Jval
  | [] => []
  | x :: xs => keysToCamel x :: keysToCamelList xs

/-- Key/value conversion of each property in enumeration order. -/
def keysToCamelFields : List (String × Jval) → List (String × Jval)
  | [] => []
  | (k, v) :: rest => (toCamelKey k, keysToCamel v) :: keysToCamelFields rest

end

mutual

/-- `keysToSnake`: recursively convert object keys from camelCase to
snake_case; `null`/`undefined` and non-plain-object values pass through,
arrays recurse element-wise, plain objects are rebuilt key by key. -/
def keysToSnake : Jval → Jval
  | .null => .null
  | .undef => .undef
  | .atom v => .atom v
  | .arr items => .arr (keysToSnakeList items)
  | .obj fields => .obj (buildObj (keysToSnakeFields fields))

/-- Element-wise conversion of an array (`obj.map(item => keysToSnake(item))`). -/
def keysToSnakeList : List Jval → List Jval
  | [] => []
  | x :: xs => keysToSnake x :: keysToSnakeList xs

/-- Key/value conversion of each property in enumeration order. -/
def keysToSnakeFields : List (String × Jval) → List (String × Jval)
  | [] => []
  | (k, v) :: rest => (toSnakeKey k, keysToSnake v) :: keysToSnakeFields rest

end

/-- The JSON error body of a failed response, as far as `apiRequest` reads it:
the optional `message` and `detail` string fields. A body that fails to parse
(`response.json().catch(() => ({}))`) is the empty object `⟨none, none⟩`. -/
structure ErrorBody where
  message : Option String
  detail : Option String
deriving DecidableEq

/-- The parts of a `fetch` `Response` that `apiRequest` inspects. -/
structure HttpResponse where
  ok : Bool
  status : Nat
  statusText : String
  errorBody : ErrorBody
deriving DecidableEq

/-- The observable outcome of `apiRequest`'s response handling: the message of
the thrown `Error` (none if nothing is thrown), whether
`localStorage.removeItem(auth_token)` ran, and whether the page navigated to
`/login`. -/
structure ApiOutcome where
  thrown : Option String
  tokenRemoved : Bool
  navigatedToLogin : Bool
deriving DecidableEq

/-- JavaScript truthiness of an optional string field: absent (`undefined`)
and the empty string are falsy. -/
def jsTruthy : Option String → Option String
  | none => none
  | some s => if s = "" then none else some s

/-- The JS expression `x || y` for an optional string field `x` and string `y`. -/
def jsOrStr (x : Option String) (y : String) : String :=
  match x with
  | none => y
  | some s => if s = "" then y else s

/-- `errorData.message || errorData.detail || response.statusText || 'Request failed'`. -/
def errorMessageOf (r : HttpResponse) : String :=
  jsOrStr r.errorBody.message
    (jsOrStr r.errorBody.detail
      (if r.statusText = "" then "Request failed" else r.statusText))

/-- The response-handling tail of `apiRequest`: on `response.ok` return
without throwing; otherwise, when the status is 401 remove the stored token
and navigate to `/login` unless the current path already contains it, then
throw an `Error` carrying `errorMessageOf`. -/
def handleResponse (pathHasLogin : Bool) (r : HttpResponse) : ApiOutcome :=
  if r.ok then ⟨none, false, false⟩
  else
    { thrown := some (errorMessageOf r)
      tokenRemoved := if r.status = 401 then true else false
      navigatedToLogin := if r.status = 401 then !pathHasLogin else false }

end ApiClient

namespace Presence

/-- One presence entry of the `userStatuses` map. -/
structure UserStatus where
  isOnline : Bool
  isTyping : Bool
deriving DecidableEq

/-- A `user_status` push: `is_typing` is `none` when the message omits the
field (JavaScript `undefined`). -/
structure UserStatusMsg where
  user_id : String
  is_online : Bool
  is_typing : Option Bool
deriving DecidableEq

/-- A `typing_status` push. -/
structure TypingMsg where
  match_id : String
  user_id : String
  is_typing : Bool
deriving DecidableEq

/-- The `user_status` branch of `ws.onmessage`:
`{...prev, [data.user_id]: {isOnline: data.is_online, isTyping: data.is_typing || false}}`. -/
def processUserStatus (prev : List (String × UserStatus)) (m : UserStatusMsg) :
    List (String × UserStatus) :=
  Js.recordSet prev m.user_id ⟨m.is_online, m.is_typing.getD false⟩

/-- The `initial_statuses` branch of `ws.onmessage`: a fresh object is built
from the pushed (user, online-flag) entries and replaces the previous map
wholesale (`prev` is discarded by `setUserStatuses(statuses)`). -/
def processInitialStatuses (prev : List (String × UserStatus))
    (entries : List (String × Bool)) : List (String × UserStatus) :=
  entries.foldl (fun acc e => Js.recordSet acc e.1 ⟨e.2, false⟩) []

/-- What a scheduled callback will do when its timer fires. -/
inductive TimerKind where
  | heartbeat
  | reconnect
  | typingExpiry (key : String) (matchId : String) (userId : String)
deriving DecidableEq

/-- A timer scheduled with `setTimeout`/`setInterval`: its handle, its
callback, and the instant it is due. -/
structure Timer where
  id : Nat
  kind : TimerKind
  deadline : Nat
deriving DecidableEq

/-- The mutable state owned by the presence hook: the two state maps, the
three timer refs (`heartbeatIntervalRef`, `reconnectTimeoutRef`,
`typingTimeoutsRef`), the runtime's pending-timer queue, a fresh-handle
counter, the clock, the channel, and observable effect counters. -/
structure MState where
  userStatuses : List (String × UserStatus)
  typingStatuses : List (String × List (String × Bool))
  typingTimeouts : List (String × Nat)
  heartbeatId : Option Nat
  reconnectId : Option Nat
  pending : List Timer
  nextId : Nat
  now : Nat
  wsOpen : Bool
  pingsSent : Nat
  connectCalls : Nat
deriving DecidableEq

/-- `clearTimeout(i)` / `clearInterval(i)`: the timer with handle `i` is
removed from the runtime's pending queue. -/
def clearTimer (s : MState) (i : Nat) : MState :=
  { s with pending := s.pending.filter fun t => t.id != i }

/-- `setTimeout(cb, delay)` / `setInterval(cb, delay)`: a fresh handle is
allocated and the timer becomes pending with deadline `now + delay`. -/
def schedule (s : MState) (k : TimerKind) (delay : Nat) : MState × Nat :=
  ({ s with
      pending := s.pending ++ [⟨s.nextId, k, s.now + delay⟩]
      nextId := s.nextId + 1 },
   s.nextId)

/-- The composite key `matchId-userId` of `typingTimeoutsRef`. -/
def typingKey (matchId userId : String) : String := matchId ++ "-" ++ userId

/-- `{...prev, [matchId]: {...prev[matchId], [userId]: b}}` (spreading a
missing inner object spreads the empty object). -/
def setTypingFlag (ts : List (String × List (String × Bool)))
    (matchId userId : String) (b : Bool) : List (String × List (String × Bool)) :=
  Js.recordSet ts matchId (Js.recordSet ((Js.recordGet ts matchId).getD []) userId b)

/-- `typingStatuses[matchId]?.[userId] || false` on a raw typing map. -/
def typingFlag (ts : List (String × List (String × Bool)))
    (userId matchId : String) : Bool :=
  ((Js.recordGet ts matchId).bind fun inner => Js.recordGet inner userId).getD false

/-- The hook's `isUserTypingInMatch` query. -/
def isUserTypingInMatch (s : MState) (userId matchId : String) : Bool :=
  typingFlag s.typingStatuses userId matchId

/-- The `typing_status` branch of `ws.onmessage`: clear any pending timer
registered for the `matchId-userId` key, set the flag to the pushed value,
and when the flag is true schedule a fresh 3000 ms expiry timer and register
its handle under the key. -/
def processTypingStatus (s : MState) (m : TypingMsg) : MState :=
  let key := typingKey m.match_id m.user_id
  let s1 :=
    match Js.recordGet s.typingTimeouts key with
    | some tid => clearTimer s tid
    | none => s
  let s2 :=
    { s1 with typingStatuses := setTypingFlag s1.typingStatuses m.match_id m.user_id m.is_typing }
  if m.is_typing then
    let st := schedule s2 (.typingExpiry key m.match_id m.user_id) 3000
    { st.1 with typingTimeouts := Js.recordSet st.1.typingTimeouts key st.2 }
  else s2

/-- The runtime delivering timer `i`. A cancelled (non-pending) handle is a
no-op. A heartbeat interval tick re-arms itself and, when the channel is
open, sends a ping. A reconnect timeout calls `connect()`. A typing-expiry
timeout flips the flag back to false and deletes its own handle from
`typingTimeoutsRef`. -/
def fireTimer (s : MState) (i : Nat) : MState :=
  match s.pending.find? fun t => t.id == i with
  | none => s
  | some t =>
    match t.kind with
    | .heartbeat =>
      let s' := { s with
        pending := s.pending.map fun t' =>
          if t'.id == i then { t' with deadline := t'.deadline + 30000 } else t' }
      if s.wsOpen then { s' with pingsSent := s'.pingsSent + 1 } else s'
    | .reconnect =>
      { s with
          pending := s.pending.filter fun t' => t'.id != i
          connectCalls := s.connectCalls + 1 }
    | .typingExpiry key matchId userId =>
      { s with
          pending := s.pending.filter fun t' => t'.id != i
          typingStatuses := setTypingFlag s.typingStatuses matchId userId false
          typingTimeouts := s.typingTimeouts.filter fun p => p.1 != key }

/-- `ws.onclose`: stop the heartbeat; if a credential is still stored,
schedule a reconnect after 3000 ms and remember its handle. -/
def handleClose (s : MState) (tokenPresent : Bool) : MState :=
  let s1 :=
    match s.heartbeatId with
    | some i => clearTimer s i
    | none => s
  let s2 := { s1 with wsOpen := false }
  if tokenPresent then
    let st := schedule s2 .reconnect 3000
    { st.1 with reconnectId := some st.2 }
  else s2

/-- The effect cleanup of the hook: clear the heartbeat interval, clear a
pending reconnect timeout, clear every timeout registered in
`typingTimeoutsRef`, and close the channel. -/
def cleanup (s : MState) : MState :=
  let s1 :=
    match s.heartbeatId with
    | some i => clearTimer s i
    | none => s
  let s2 :=
    match s1.reconnectId with
    | some i => clearTimer s1 i
    | none => s1
  let s3 := s2.typingTimeouts.foldl (fun acc p => clearTimer acc p.2) s2
  { s3 with wsOpen := false }

/-- Every pending timer's handle is registered in the ref that owns its kind:
a pending heartbeat is the one in `heartbeatIntervalRef`, a pending reconnect
the one in `reconnectTimeoutRef`, and a pending typing expiry the one
registered under its key in `typingTimeoutsRef`. The hook maintains this:
every `setTimeout`/`setInterval` result is stored in its ref at once. -/
def wfRefs (s : MState) : Bool :=
  s.pending.all fun t =>
    match t.kind with
    | .typingExpiry key _ _ => Js.recordGet s.typingTimeouts key == some t.id
    | .heartbeat => s.heartbeatId == some t.id
    | .reconnect => s.reconnectId == some t.id

/-- Pending timer handles are below the fresh-handle counter. -/
def freshIds (s : MState) : Bool :=
  s.pending.all fun t => t.id < s.nextId

/-- Is `t` a typing-expiry timer for the given composite key? -/
def isTypingTimerFor (t : Timer) (key : String) : Bool :=
  match t.kind with
  | .typingExpiry k _ _ => k == key
  | _ => false

/-- The three listener registries; callbacks are identified by reference,
modelled as numeric identities. -/
structure Registries where
  messageListeners : List Nat
  messageStatusListeners : List Nat
  matchStatusListeners : List Nat
deriving DecidableEq

/-- `Set.add`: insertion-ordered, a no-op when the element is present. -/
def setAdd (l : List Nat) (c : Nat) : List Nat :=
  if c ∈ l then l else l ++ [c]

/-- `Set.delete`: removes the element if present. -/
def setDelete (l : List Nat) (c : Nat) : List Nat :=
  l.filter fun x => x != c

/-- `onNewMessage(callback)`: add the callback to the new-message registry
and return the unsubscribe function that deletes it. -/
def onNewMessage (r : Registries) (c : Nat) : Registries × (Registries → Registries) :=
  ({ r with messageListeners := setAdd r.messageListeners c },
   fun r' => { r' with messageListeners := setDelete r'.messageListeners c })

/-- `onMessageStatusUpdate(callback)`. -/
def onMessageStatusUpdate (r : Registries) (c : Nat) :
    Registries × (Registries → Registries) :=
  ({ r with messageStatusListeners := setAdd r.messageStatusListeners c },
   fun r' => { r' with messageStatusListeners := setDelete r'.messageStatusListeners c })

/-- `onMatchStatusUpdate(callback)`. -/
def onMatchStatusUpdate (r : Registries) (c : Nat) :
    Registries × (Registries → Registries) :=
  ({ r with matchStatusListeners := setAdd r.matchStatusListeners c },
   fun r' => { r' with matchStatusListeners := setDelete r'.matchStatusListeners c })

/-- The `new_message` branch of `ws.onmessage` invokes each registered
listener in order; the result is the invocation list. -/
def dispatchNewMessage (r : Registries) : List Nat := r.messageListeners

/-- The `message_status_update` dispatch. -/
def dispatchMessageStatusUpdate (r : Registries) : List Nat := r.messageStatusListeners

/-- The `match_status_update` dispatch. -/
def dispatchMatchStatusUpdate (r : Registries) : List Nat := r.matchStatusListeners

/-- A concrete mid-quiet-period scenario: the freshly connected manager
receives a typing push for (match `m1`, user `u1`) at time 0, and the clock
then advances to 2000 ms — inside the 3-second quiet period, with the first
expiry timer still pending. -/
def midPeriodState : MState :=
  { processTypingStatus ⟨[], [], [], none, none, [], 0, 0, true, 0, 0⟩
      ⟨"m1", "u1", true⟩ with
    now := 2000 }

end Presence

namespace Js

theorem recordGet_set_same {α : Type} (m : List (String × α)) (k : String) (v : α) :
    recordGet (recordSet m k v) k = some v := by
  rw [recordSet]
  by_cases h : (m.any fun p => p.1 == k) = true
  · rw [if_pos h, recordGet, List.find?_map]
    have hpred : ((fun p : String × α => p.1 == k) ∘
        fun p => if p.1 == k then (k, v) else p) = fun p : String × α => p.1 == k := by
      funext p
      by_cases hp : p.1 = k <;> simp [hp]
    rw [hpred]
    rw [List.any_eq_true] at h
    obtain ⟨q, hq, hqk⟩ := h
    obtain ⟨q', hq'⟩ :
        ∃ q', (m.find? fun p => p.1 == k) = some q' := by
      cases hf : m.find? fun p => p.1 == k with
      | some q' => exact ⟨q', rfl⟩
      | none =>
        rw [List.find?_eq_none] at hf
        have := hf q hq
        simp only [hqk] at this
        exact absurd this (by simp)
    have hq'1 := List.find?_some hq'
    simp only [beq_iff_eq] at hq'1
    simp [hq', hq'1]
  · rw [if_neg h, recordGet, List.find?_append]
    have hnone : (m.find? fun p => p.1 == k) = none := by
      rw [List.find?_eq_none]
      intro p hp
      simp only [List.any_eq_true, not_exists, not_and] at h
      have := h p hp
      simpa using this
    simp [hnone, List.find?]

theorem recordGet_set_ne {α : Type} (m : List (String × α)) (k : String) (v : α)
    (u : String) (hu : u ≠ k) :
    recordGet (recordSet m k v) u = recordGet m u := by
  rw [recordSet]
  by_cases h : (m.any fun p => p.1 == k) = true
  · rw [if_pos h, recordGet, List.find?_map]
    have hpred : ((fun p : String × α => p.1 == u) ∘
        fun p => if p.1 == k then (k, v) else p) = fun p : String × α => p.1 == u := by
      funext p
      by_cases hp : p.1 = k <;> simp [hp, Ne.symm hu]
    rw [hpred, recordGet]
    cases hf : m.find? fun p => p.1 == u with
    | none => simp
    | some q =>
      have hq1 := List.find?_some hf
      simp only [beq_iff_eq] at hq1
      have hqk : ¬ q.1 = k := by
        intro hqk
        exact hu (hq1 ▸ hqk ▸ rfl)
      simp [hqk]
  · rw [if_neg h, recordGet, List.find?_append, recordGet]
    have hku : (k == u) = false := by
      simp [Ne.symm hu]
    have : ([((k, v))].find? fun p => p.1 == u) = none := by
      simp [List.find?, hku]
    simp [this]

theorem recordGet_filter_ne {α : Type} (l : List (String × α)) (k : String) :
    recordGet (l.filter fun p => p.1 != k) k = none := by
  rw [recordGet]
  have : ((l.filter fun p => p.1 != k).find? fun p => p.1 == k) = none := by
    rw [List.find?_eq_none]
    intro p hp
    rw [List.mem_filter] at hp
    simpa using hp.2
  simp [this]

theorem recordSet_of_not_mem {α : Type} (m : List (String × α)) (k : String) (v : α)
    (h : ∀ p ∈ m, p.1 ≠ k) :
    recordSet m k v = m ++ [(k, v)] := by
  rw [recordSet, if_neg]
  simp only [List.any_eq_true, not_exists, not_and]
  intro p hp
  simp [h p hp]

theorem foldl_recordSet_eq_append {α : Type} (fs : List (String × α)) :
    ∀ acc : List (String × α),
      (((acc ++ fs).map Prod.fst).Nodup) →
      fs.foldl (fun a p => recordSet a p.1 p.2) acc = acc ++ fs := by
  induction fs with
  | nil => intro acc _; simp
  | cons p ps ih =>
    intro acc hnd
    obtain ⟨k, v⟩ := p
    have hknotin : ∀ q ∈ acc, q.1 ≠ k := by
      intro q hq hqk
      have hmem : k ∈ acc.map Prod.fst := by
        simpa [hqk] using List.mem_map_of_mem Prod.fst hq
      have hk2 : k ∈ ((k, v) :: ps).map Prod.fst := by simp
      rw [List.map_append, List.nodup_append] at hnd
      exact hnd.2.2 hmem hk2
    simp only [List.foldl_cons]
    rw [recordSet_of_not_mem acc k v hknotin]
    have := ih (acc ++ [(k, v)]) (by simpa using hnd)
    simpa using this

end Js

namespace ApiClient

theorem toNat_toUpper_of_lower (c : Char) (h : isLowerAscii c = true) :
    c.toUpper.toNat = c.toNat - 32 := by
  have h' : 97 ≤ c.toNat ∧ c.toNat ≤ 122 := by
    simpa [isLowerAscii] using h
  have hvalid : (c.toNat - 32).isValidChar := Or.inl (by omega)
  rw [Char.toUpper]
  simp only [h', if_pos, and_self]
  rw [Char.ofNat, dif_pos hvalid]
  rfl

theorem isUpperAscii_toUpper (c : Char) (h : isLowerAscii c = true) :
    isUpperAscii c.toUpper = true := by
  have h' : 97 ≤ c.toNat ∧ c.toNat ≤ 122 := by
    simpa [isLowerAscii] using h
  have := toNat_toUpper_of_lower c h
  simp [isUpperAscii, this]
  omega

theorem toLower_toUpper_of_lower (c : Char) (h : isLowerAscii c = true) :
    c.toUpper.toLower = c := by
  have h' : 97 ≤ c.toNat ∧ c.toNat ≤ 122 := by
    simpa [isLowerAscii] using h
  have hup := toNat_toUpper_of_lower c h
  rw [Char.toLower]
  have hrange : 65 ≤ c.toUpper.toNat ∧ c.toUpper.toNat ≤ 90 := by
    rw [hup]; omega
  simp only [hrange, and_self, if_pos]
  rw [hup]
  have : c.toNat - 32 + 32 = c.toNat := by omega
  rw [this, Char.ofNat_toNat]

theorem not_isUpperAscii_of_lower (c : Char) (h : isLowerAscii c = true) :
    isUpperAscii c = false := by
  have h' : 97 ≤ c.toNat ∧ c.toNat ≤ 122 := by
    simpa [isLowerAscii] using h
  simp [isUpperAscii]
  omega

theorem lower_ne_underscore (c : Char) (h : isLowerAscii c = true) : c ≠ '_' := by
  intro hc
  subst hc
  exact absurd h (by decide)

theorem toCamelCase_cons_ne (c : Char) (rest : List Char) (hne : c ≠ '_') :
    toCamelCase (c :: rest) = c :: toCamelCase rest := by
  rw [toCamelCase.eq_def]
  simp [hne]

theorem toCamelCase_underscore_lower (d : Char) (rest : List Char)
    (hd : isLowerAscii d = true) :
    toCamelCase ('_' :: d :: rest) = d.toUpper :: toCamelCase rest := by
  simp [toCamelCase, hd]

/-- `toCamelCase` copies a lowercase run unchanged and continues. -/
theorem toCamelCase_append_lower (w rest : List Char)
    (h : w.all isLowerAscii = true) :
    toCamelCase (w ++ rest) = w ++ toCamelCase rest := by
  induction w with
  | nil => simp
  | cons c cs ih =>
    have hc : isLowerAscii c = true := by
      simp [List.all_cons] at h; exact h.1
    have hcs : cs.all isLowerAscii = true := by
      simp [List.all_cons] at h; simpa using h.2
    have hne : c ≠ '_' := lower_ne_underscore c hc
    simp only [List.cons_append]
    rw [toCamelCase_cons_ne c _ hne, ih hcs]

/-- `toSnakeCase` copies a run of non-uppercase characters unchanged. -/
theorem toSnakeCase_append_nonupper (w rest : List Char)
    (h : ∀ c ∈ w, isUpperAscii c = false) :
    toSnakeCase (w ++ rest) = w ++ toSnakeCase rest := by
  induction w with
  | nil => simp
  | cons c cs ih =>
    have hc : isUpperAscii c = false := h c (by simp)
    have hcs : ∀ x ∈ cs, isUpperAscii x = false := fun x hx => h x (by simp [hx])
    simp only [List.cons_append]
    rw [toSnakeCase, if_neg (by simp [hc])]
    simp [ih hcs]

theorem toSnakeCase_append_lower (w rest : List Char)
    (h : w.all isLowerAscii = true) :
    toSnakeCase (w ++ rest) = w ++ toSnakeCase rest := by
  refine toSnakeCase_append_nonupper w rest fun c hc => ?_
  exact not_isUpperAscii_of_lower c (by simp [List.all_eq_true] at h; exact h c hc)

theorem toSnakeCase_cons_upper (c : Char) (rest : List Char)
    (h : isUpperAscii c = true) :
    toSnakeCase (c :: rest) = '_' :: c.toLower :: toSnakeCase rest := by
  rw [toSnakeCase, if_pos (by simp [h])]

theorem snakeOf_cons (w : List Char) (ws : List (List Char)) :
    snakeOf (w :: ws) = w ++ snakeTail ws := by
  induction ws generalizing w with
  | nil => simp [snakeOf, snakeTail]
  | cons w' ws' ih =>
    simp only [snakeOf, snakeTail, List.map_cons, List.flatten_cons]
    rw [ih w']
    simp [snakeTail]

theorem toCamelCase_underscore_word (w r : List Char) (hw : lowerWord w = true) :
    toCamelCase ('_' :: (w ++ r)) = capWord w ++ toCamelCase r := by
  cases w with
  | nil => simp [lowerWord] at hw
  | cons c cs =>
    have hall : (c :: cs).all isLowerAscii = true := by
      simp [lowerWord] at hw
      simp [List.all_eq_true]
      exact hw
    have hc : isLowerAscii c = true := by
      simp [List.all_cons] at hall; exact hall.1
    have hcs : cs.all isLowerAscii = true := by
      simp [List.all_cons] at hall; simpa using hall.2
    simp only [List.cons_append]
    rw [toCamelCase_underscore_lower c _ hc, capWord]
    simp [toCamelCase_append_lower cs r hcs]

theorem toCamelCase_snakeTail (ws : List (List Char))
    (h : ∀ w ∈ ws, lowerWord w = true) :
    toCamelCase (snakeTail ws) = (ws.map capWord).flatten := by
  induction ws with
  | nil => simp [snakeTail, toCamelCase]
  | cons w ws' ih =>
    have hw : lowerWord w = true := h w (by simp)
    have hws : ∀ w' ∈ ws', lowerWord w' = true := fun w' hx => h w' (by simp [hx])
    simp only [snakeTail, List.map_cons, List.flatten_cons]
    rw [show ('_' :: w) ++ (ws'.map fun w => '_' :: w).flatten
          = '_' :: (w ++ (ws'.map fun w => '_' :: w).flatten) by simp]
    rw [toCamelCase_underscore_word w _ hw]
    rw [show ((ws'.map fun w => '_' :: w).flatten : List Char) = snakeTail ws' from rfl]
    rw [ih hws]

theorem lowerWord_all (w : List Char) (hw : lowerWord w = true) :
    w.all isLowerAscii = true := by
  simp [lowerWord] at hw
  simp [List.all_eq_true]
  exact hw.2

theorem toSnakeCase_capFlatten (ws : List (List Char))
    (h : ∀ w ∈ ws, lowerWord w = true) :
    toSnakeCase ((ws.map capWord).flatten) = snakeTail ws := by
  induction ws with
  | nil => simp [snakeTail, toSnakeCase]
  | cons w ws' ih =>
    have hw : lowerWord w = true := h w (by simp)
    have hws : ∀ w' ∈ ws', lowerWord w' = true := fun w' hx => h w' (by simp [hx])
    cases w with
    | nil => simp [lowerWord] at hw
    | cons c cs =>
      have hall : (c :: cs).all isLowerAscii = true := lowerWord_all _ hw
      have hc : isLowerAscii c = true := by
        simp [List.all_cons] at hall; exact hall.1
      have hcs : cs.all isLowerAscii = true := by
        simp [List.all_cons] at hall; simpa using hall.2
      simp only [List.map_cons, List.flatten_cons, capWord, List.cons_append]
      rw [toSnakeCase_cons_upper _ _ (isUpperAscii_toUpper c hc)]
      rw [toLower_toUpper_of_lower c hc]
      rw [toSnakeCase_append_lower cs _ hcs]
      rw [ih hws]
      simp [snakeTail]

theorem toCamelCase_snakeOf (ws : List (List Char))
    (h : ∀ w ∈ ws, lowerWord w = true) :
    toCamelCase (snakeOf ws) = camelOf ws := by
  cases ws with
  | nil => simp [snakeOf, camelOf, toCamelCase]
  | cons w ws' =>
    have hw : lowerWord w = true := h w (by simp)
    have hws : ∀ w' ∈ ws', lowerWord w' = true := fun w' hx => h w' (by simp [hx])
    rw [snakeOf_cons, camelOf]
    rw [toCamelCase_append_lower w _ (lowerWord_all w hw)]
    rw [toCamelCase_snakeTail ws' hws]

theorem toSnakeCase_camelOf (ws : List (List Char))
    (h : ∀ w ∈ ws, lowerWord w = true) :
    toSnakeCase (camelOf ws) = snakeOf ws := by
  cases ws with
  | nil => simp [snakeOf, camelOf, toSnakeCase]
  | cons w ws' =>
    have hw : lowerWord w = true := h w (by simp)
    have hws : ∀ w' ∈ ws', lowerWord w' = true := fun w' hx => h w' (by simp [hx])
    rw [camelOf, snakeOf_cons]
    rw [toSnakeCase_append_lower w _ (lowerWord_all w hw)]
    rw [toSnakeCase_capFlatten ws' hws]

/-- Claim C3, as stated, is false: the key `foo_bar` is composed of the lowercase
ASCII words `foo` and `bar` joined by an underscore, yet
`toCamelCase (toSnakeCase "foo_bar")` is `fooBar`, not the original key. -/
theorem claim_C3_counterexample :
    (∀ w ∈ [['f', 'o', 'o'], ['b', 'a', 'r']], lowerWord w = true) ∧
    toCamelCase (toSnakeCase (snakeOf [['f', 'o', 'o'], ['b', 'a', 'r']]))
      ≠ snakeOf [['f', 'o', 'o'], ['b', 'a', 'r']] := by
  decide

/-- Claim C3 (amended): for every key composed of lowercase ASCII words joined by
underscores, applying the underscore-to-word-boundary conversion (`toCamelCase`)
and then the word-boundary-to-underscore conversion (`toSnakeCase`) returns the
original key. -/
theorem claim_C3_amended (ws : List (List Char))
    (h : ∀ w ∈ ws, lowerWord w = true) :
    toSnakeCase (toCamelCase (snakeOf ws)) = snakeOf ws := by
  rw [toCamelCase_snakeOf ws h, toSnakeCase_camelOf ws h]

theorem claim_C3_amended_witness :
    (∀ w ∈ [['f', 'o', 'o'], ['b', 'a', 'r']], lowerWord w = true) ∧
    toSnakeCase (toCamelCase (snakeOf [['f', 'o', 'o'], ['b', 'a', 'r']]))
      = snakeOf [['f', 'o', 'o'], ['b', 'a', 'r']] :=
  ⟨by decide, claim_C3_amended [['f', 'o', 'o'], ['b', 'a', 'r']] (by decide)⟩

/-- Claim C7: for every key already in word-boundary (camelCase) casing,
built from lowercase ASCII words with capitals only at word starts, applying
the request-side conversion (`toSnakeCase`) and then the response-side
conversion (`toCamelCase`) is the identity. -/
theorem claim_C7 (ws : List (List Char))
    (h : ∀ w ∈ ws, lowerWord w = true) :
    toCamelCase (toSnakeCase (camelOf ws)) = camelOf ws := by
  rw [toSnakeCase_camelOf ws h, toCamelCase_snakeOf ws h]

theorem claim_C7_witness :
    (∀ w ∈ [['f', 'o', 'o'], ['b', 'a', 'r']], lowerWord w = true) ∧
    toCamelCase (toSnakeCase (camelOf [['f', 'o', 'o'], ['b', 'a', 'r']]))
      = camelOf [['f', 'o', 'o'], ['b', 'a', 'r']] :=
  ⟨by decide, claim_C7 [['f', 'o', 'o'], ['b', 'a', 'r']] (by decide)⟩

theorem keysToSnakeList_eq_map (l : List Jval) :
    keysToSnakeList l = l.map keysToSnake := by
  induction l with
  | nil => simp [keysToSnakeList]
  | cons x xs ih => simp [keysToSnakeList, ih]

theorem keysToCamelList_eq_map (l : List Jval) :
    keysToCamelList l = l.map keysToCamel := by
  induction l with
  | nil => simp [keysToCamelList]
  | cons x xs ih => simp [keysToCamelList, ih]

theorem keysToSnakeFields_eq_map (fs : List (String × Jval)) :
    keysToSnakeFields fs = fs.map fun p => (toSnakeKey p.1, keysToSnake p.2) := by
  induction fs with
  | nil => simp [keysToSnakeFields]
  | cons p ps ih =>
    obtain ⟨k, v⟩ := p
    simp [keysToSnakeFields, ih]

theorem keysToCamelFields_eq_map (fs : List (String × Jval)) :
    keysToCamelFields fs = fs.map fun p => (toCamelKey p.1, keysToCamel p.2) := by
  induction fs with
  | nil => simp [keysToCamelFields]
  | cons p ps ih =>
    obtain ⟨k, v⟩ := p
    simp [keysToCamelFields, ih]

theorem buildObj_nodup (fs : List (String × Jval))
    (h : (fs.map Prod.fst).Nodup) : buildObj fs = fs := by
  have := Js.foldl_recordSet_eq_append fs [] (by simpa using h)
  simpa [buildObj] using this

/-- Claim C8: `keysToSnake` and `keysToCamel` preserve structure:
`null`/`undefined` and non-plain-object values pass through unchanged, arrays
are mapped element-wise in order, and plain objects are rebuilt with every key
converted (stated for objects whose converted keys do not collide; claim C10
covers the colliding case). -/
theorem claim_C8 :
    (keysToSnake Jval.null = Jval.null) ∧
    (keysToCamel Jval.null = Jval.null) ∧
    (keysToSnake Jval.undef = Jval.undef) ∧
    (keysToCamel Jval.undef = Jval.undef) ∧
    (∀ s, keysToSnake (Jval.atom s) = Jval.atom s) ∧
    (∀ s, keysToCamel (Jval.atom s) = Jval.atom s) ∧
    (∀ items, keysToSnake (Jval.arr items) = Jval.arr (items.map keysToSnake)) ∧
    (∀ items, keysToCamel (Jval.arr items) = Jval.arr (items.map keysToCamel)) ∧
    (∀ fields, ((fields.map fun p => toSnakeKey p.1).Nodup) →
      keysToSnake (Jval.obj fields)
        = Jval.obj (fields.map fun p => (toSnakeKey p.1, keysToSnake p.2))) ∧
    (∀ fields, ((fields.map fun p => toCamelKey p.1).Nodup) →
      keysToCamel (Jval.obj fields)
        = Jval.obj (fields.map fun p => (toCamelKey p.1, keysToCamel p.2))) := by
  refine ⟨rfl, rfl, rfl, rfl, fun s => rfl, fun s => rfl, ?_, ?_, ?_, ?_⟩
  · intro items
    rw [keysToSnake, keysToSnakeList_eq_map]
  · intro items
    rw [keysToCamel, keysToCamelList_eq_map]
  · intro fields hnd
    rw [keysToSnake, keysToSnakeFields_eq_map, buildObj_nodup]
    simpa [List.map_map, Function.comp] using hnd
  · intro fields hnd
    rw [keysToCamel, keysToCamelFields_eq_map, buildObj_nodup]
    simpa [List.map_map, Function.comp] using hnd

theorem snakeKey_fooBar : toSnakeKey "fooBar" = "foo_bar" := by decide

theorem snakeKey_foo_bar : toSnakeKey "foo_bar" = "foo_bar" := by decide

theorem snakeKey_bazQux : toSnakeKey "bazQux" = "baz_qux" := by decide

theorem snakeKey_innerKey : toSnakeKey "innerKey" = "inner_key" := by decide

theorem claim_C8_witness :
    (([(("fooBar" : String), Jval.arr [Jval.atom "1", Jval.null]),
       (("bazQux" : String), Jval.obj [("innerKey", Jval.undef)])].map
        fun p => toSnakeKey p.1).Nodup) ∧
    keysToSnake (Jval.obj [("fooBar", Jval.arr [Jval.atom "1", Jval.null]),
                           ("bazQux", Jval.obj [("innerKey", Jval.undef)])])
      = Jval.obj [("foo_bar", Jval.arr [Jval.atom "1", Jval.null]),
                  ("baz_qux", Jval.obj [("inner_key", Jval.undef)])] := by
  constructor
  · simp [snakeKey_fooBar, snakeKey_bazQux]
  · rw [claim_C8.2.2.2.2.2.2.2.2.1 _ (by simp [snakeKey_fooBar, snakeKey_bazQux])]
    simp only [List.map_cons, List.map_nil]
    rw [claim_C8.2.2.2.2.2.2.2.2.1 _ (by simp [snakeKey_innerKey])]
    rw [claim_C8.2.2.2.2.2.2.1]
    simp [snakeKey_fooBar, snakeKey_bazQux, snakeKey_innerKey,
      keysToSnake]

/-- Claim C10: key conversion is not injective on objects: converting the keys
of an object holding both `fooBar` and `foo_bar` sends both to `foo_bar`, the
later-enumerated property silently overwriting the earlier one, so the output
object has fewer properties than the input. -/
theorem claim_C10 :
    keysToSnake (Jval.obj [("fooBar", Jval.atom "a"), ("foo_bar", Jval.atom "b")])
      = Jval.obj [("foo_bar", Jval.atom "b")] ∧
    [(("foo_bar" : String), Jval.atom "b")].length
      < [(("fooBar" : String), Jval.atom "a"),
         (("foo_bar" : String), Jval.atom "b")].length := by
  constructor
  · rw [keysToSnake, keysToSnakeFields_eq_map]
    simp [buildObj, Js.recordSet, snakeKey_fooBar, snakeKey_foo_bar, keysToSnake]
  · simp

theorem jsOrStr_of_truthy_none (x : Option String) (y : String)
    (h : jsTruthy x = none) : jsOrStr x y = y := by
  cases x with
  | none => rfl
  | some s =>
    by_cases hs : s = ""
    · simp [jsOrStr, hs]
    · simp [jsTruthy, hs] at h

theorem jsOrStr_of_some (s y : String) (h : s ≠ "") : jsOrStr (some s) y = s := by
  simp [jsOrStr, h]

/-- Claim C5: a successful response throws nothing and touches neither token
nor navigation; every non-success response throws an `Error` whose message is
the first available (present and nonempty) of the body's `message` field, the
body's `detail` field, the HTTP status text, and the fallback
`Request failed`; a 401 additionally removes the stored credential and
navigates to the login route unless the path already contains it, while a
non-401 failure does neither. -/
theorem claim_C5 (p : Bool) (r : HttpResponse) :
    (r.ok = true → handleResponse p r = ⟨none, false, false⟩) ∧
    (r.ok = false →
      (∀ s, r.errorBody.message = some s → s ≠ "" →
        (handleResponse p r).thrown = some s) ∧
      (∀ s, jsTruthy r.errorBody.message = none → r.errorBody.detail = some s →
        s ≠ "" → (handleResponse p r).thrown = some s) ∧
      (jsTruthy r.errorBody.message = none → jsTruthy r.errorBody.detail = none →
        r.statusText ≠ "" → (handleResponse p r).thrown = some r.statusText) ∧
      (jsTruthy r.errorBody.message = none → jsTruthy r.errorBody.detail = none →
        r.statusText = "" → (handleResponse p r).thrown = some "Request failed") ∧
      (r.status = 401 → (handleResponse p r).tokenRemoved = true ∧
        (handleResponse p r).navigatedToLogin = !p) ∧
      (r.status ≠ 401 → (handleResponse p r).tokenRemoved = false ∧
        (handleResponse p r).navigatedToLogin = false)) := by
  constructor
  · intro hok
    simp [handleResponse, hok]
  · intro hok
    refine ⟨?_, ?_, ?_, ?_, ?_, ?_⟩
    · intro s hs hne
      simp [handleResponse, hok, errorMessageOf, hs, jsOrStr_of_some s _ hne]
    · intro s hm hd hne
      simp [handleResponse, hok, errorMessageOf, jsOrStr_of_truthy_none _ _ hm,
        hd, jsOrStr_of_some s _ hne]
    · intro hm hd hne
      simp [handleResponse, hok, errorMessageOf, jsOrStr_of_truthy_none _ _ hm,
        jsOrStr_of_truthy_none _ _ hd, hne]
    · intro hm hd hne
      simp [handleResponse, hok, errorMessageOf, jsOrStr_of_truthy_none _ _ hm,
        jsOrStr_of_truthy_none _ _ hd, hne]
    · intro h401
      simp [handleResponse, hok, h401]
    · intro h401
      simp [handleResponse, hok, h401]

theorem claim_C5_witness :
    ((handleResponse false
        ⟨false, 500, "Internal Server Error", ⟨none, some "boom"⟩⟩).thrown
      = some "boom") ∧
    ((handleResponse false
        ⟨false, 401, "Unauthorized", ⟨none, none⟩⟩).tokenRemoved = true) ∧
    ((handleResponse true
        ⟨true, 200, "OK", ⟨none, none⟩⟩) = ⟨none, false, false⟩) := by
  refine ⟨?_, ?_, ?_⟩
  · exact ((claim_C5 false _).2 rfl).2.1 "boom" rfl rfl (by decide)
  · exact ((((claim_C5 false _).2 rfl).2.2.2.2.1) rfl).1
  · exact (claim_C5 true _).1 rfl

end ApiClient

namespace Presence

/-- Claim C1, as stated, is false: with an existing presence entry
`u1 ↦ {isOnline: true, isTyping: true}`, a `user_status` push for `u1` that
omits `is_typing` does not preserve the typing flag — the handler computes
`data.is_typing || false` and resets it to false. -/
theorem claim_C1_counterexample :
    Js.recordGet (processUserStatus [("u1", ⟨true, true⟩)]
      ⟨"u1", true, none⟩) "u1" = some ⟨true, false⟩ ∧
    Js.recordGet (processUserStatus [("u1", ⟨true, true⟩)]
      ⟨"u1", true, none⟩) "u1" ≠ some ⟨true, true⟩ := by
  decide

/-- Claim C1 (amended): a `user_status` push upserts exactly the pushed
user's presence entry, with `isOnline` the pushed flag and `isTyping` the
pushed value when the message includes one and false when it omits it;
presence entries of all other users are unchanged. -/
theorem claim_C1_amended (prev : List (String × UserStatus)) (m : UserStatusMsg) :
    (∀ b, m.is_typing = some b →
      Js.recordGet (processUserStatus prev m) m.user_id = some ⟨m.is_online, b⟩) ∧
    (m.is_typing = none →
      Js.recordGet (processUserStatus prev m) m.user_id = some ⟨m.is_online, false⟩) ∧
    (∀ u, u ≠ m.user_id →
      Js.recordGet (processUserStatus prev m) u = Js.recordGet prev u) := by
  refine ⟨?_, ?_, ?_⟩
  · intro b hb
    simp [processUserStatus, hb, Js.recordGet_set_same]
  · intro hb
    simp [processUserStatus, hb, Js.recordGet_set_same]
  · intro u hu
    simp [processUserStatus, Js.recordGet_set_ne _ _ _ _ hu]

theorem claim_C1_amended_witness :
    Js.recordGet (processUserStatus [("u1", ⟨true, true⟩), ("u2", ⟨false, true⟩)]
      ⟨"u1", true, none⟩) "u1" = some ⟨true, false⟩ ∧
    Js.recordGet (processUserStatus [("u1", ⟨true, true⟩), ("u2", ⟨false, true⟩)]
      ⟨"u1", true, none⟩) "u2" = some ⟨false, true⟩ := by
  constructor
  · exact (claim_C1_amended _ _).2.1 rfl
  · rw [(claim_C1_amended [("u1", ⟨true, true⟩), ("u2", ⟨false, true⟩)]
      ⟨"u1", true, none⟩).2.2 "u2" (by decide)]
    decide

/-- Claim C6: an `initial_statuses` push replaces the entire presence map:
whatever was there before, the new map has exactly one entry per pushed
(user, online-flag) pair, with `isOnline` that flag and `isTyping` false,
and nothing else. -/
theorem claim_C6 (prev : List (String × UserStatus)) (entries : List (String × Bool))
    (h : (entries.map Prod.fst).Nodup) :
    processInitialStatuses prev entries
      = entries.map fun e => (e.1, ⟨e.2, false⟩) := by
  have heq : processInitialStatuses prev entries
      = (entries.map fun e => (e.1, (⟨e.2, false⟩ : UserStatus))).foldl
          (fun a p => Js.recordSet a p.1 p.2) [] := by
    rw [List.foldl_map]
    rfl
  rw [heq, Js.foldl_recordSet_eq_append]
  · simp
  · simpa [List.map_map, Function.comp] using h

theorem claim_C6_witness :
    ((([("u1", true), ("u2", false)] : List (String × Bool)).map Prod.fst).Nodup) ∧
    processInitialStatuses [("u3", ⟨true, true⟩)] [("u1", true), ("u2", false)]
      = [("u1", ⟨true, false⟩), ("u2", ⟨false, false⟩)] := by
  constructor
  · decide
  · rw [claim_C6 [("u3", ⟨true, true⟩)] [("u1", true), ("u2", false)] (by decide)]
    decide

theorem setAdd_mem (l : List Nat) (c : Nat) : c ∈ setAdd l c := by
  by_cases hc : c ∈ l <;> simp [setAdd, hc]

theorem setDelete_mem (l : List Nat) (c x : Nat) :
    x ∈ setDelete l c ↔ x ∈ l ∧ x ≠ c := by
  simp [setDelete, List.mem_filter]

theorem setDelete_idem (l : List Nat) (c : Nat) :
    setDelete (setDelete l c) c = setDelete l c := by
  simp [setDelete, List.filter_filter]

/-- Claim C9: each of `onNewMessage`, `onMessageStatusUpdate` and
`onMatchStatusUpdate` registers the callback in its registry and returns an
unsubscribe function that removes exactly that callback; unsubscribing again
is an idempotent no-op; and after registering two new-message subscribers and
unsubscribing the first, a `new_message` push invokes only the remaining
subscriber. -/
theorem claim_C9 (r r' : Registries) (c : Nat) :
    (c ∈ (onNewMessage r c).1.messageListeners) ∧
    (∀ x, x ∈ ((onNewMessage r c).2 r').messageListeners ↔
      x ∈ r'.messageListeners ∧ x ≠ c) ∧
    ((onNewMessage r c).2 ((onNewMessage r c).2 r') = (onNewMessage r c).2 r') ∧
    (c ∈ (onMessageStatusUpdate r c).1.messageStatusListeners) ∧
    (∀ x, x ∈ ((onMessageStatusUpdate r c).2 r').messageStatusListeners ↔
      x ∈ r'.messageStatusListeners ∧ x ≠ c) ∧
    ((onMessageStatusUpdate r c).2 ((onMessageStatusUpdate r c).2 r')
      = (onMessageStatusUpdate r c).2 r') ∧
    (c ∈ (onMatchStatusUpdate r c).1.matchStatusListeners) ∧
    (∀ x, x ∈ ((onMatchStatusUpdate r c).2 r').matchStatusListeners ↔
      x ∈ r'.matchStatusListeners ∧ x ≠ c) ∧
    ((onMatchStatusUpdate r c).2 ((onMatchStatusUpdate r c).2 r')
      = (onMatchStatusUpdate r c).2 r') ∧
    (∀ c2 : Nat, c ≠ c2 →
      dispatchNewMessage ((onNewMessage ⟨[], [], []⟩ c).2
        ((onNewMessage (onNewMessage ⟨[], [], []⟩ c).1 c2).1)) = [c2]) := by
  refine ⟨?_, ?_, ?_, ?_, ?_, ?_, ?_, ?_, ?_, ?_⟩
  · exact setAdd_mem _ _
  · intro x
    exact setDelete_mem _ _ _
  · simp [onNewMessage, setDelete_idem]
  · exact setAdd_mem _ _
  · intro x
    exact setDelete_mem _ _ _
  · simp [onMessageStatusUpdate, setDelete_idem]
  · exact setAdd_mem _ _
  · intro x
    exact setDelete_mem _ _ _
  · simp [onMatchStatusUpdate, setDelete_idem]
  · intro c2 hne
    have h21 : (c2 != c) = true := by simp [Ne.symm hne]
    simp [onNewMessage, dispatchNewMessage, setAdd, setDelete, Ne.symm hne,
      List.filter, hne, h21]

theorem claim_C9_witness :
    (0 : Nat) ≠ 1 ∧
    dispatchNewMessage ((onNewMessage ⟨[], [], []⟩ 0).2
      ((onNewMessage (onNewMessage ⟨[], [], []⟩ 0).1 1).1)) = [1] :=
  ⟨by decide,
    (claim_C9 ⟨[], [], []⟩ ⟨[], [], []⟩ 0).2.2.2.2.2.2.2.2.2 1 (by decide)⟩

theorem foldl_clear_eq (l : List (String × Nat)) :
    ∀ st : MState,
      l.foldl (fun acc p => clearTimer acc p.2) st
        = { st with pending := st.pending.filter fun t => l.all fun p => t.id != p.2 } := by
  induction l with
  | nil =>
    intro st
    simp
  | cons p ps ih =>
    intro st
    simp only [List.foldl_cons]
    rw [ih (clearTimer st p.2)]
    simp only [clearTimer, List.filter_filter]
    congr 1
    apply List.filter_congr
    intro t _
    simp [List.all_cons, Bool.and_comm]

theorem cleanup_eq (s : MState) :
    cleanup s = { s with
      wsOpen := false
      pending := ((s.pending.filter fun t =>
          match s.heartbeatId with
          | some i => t.id != i
          | none => true).filter fun t =>
          match s.reconnectId with
          | some i => t.id != i
          | none => true).filter fun t =>
          s.typingTimeouts.all fun p => t.id != p.2 } := by
  rw [cleanup]
  cases hh : s.heartbeatId with
  | none =>
    cases hr : s.reconnectId with
    | none =>
      rw [foldl_clear_eq]
      simp [hh, hr]
    | some j =>
      rw [foldl_clear_eq]
      simp [clearTimer, hh, hr]
  | some i =>
    cases hr : s.reconnectId with
    | none =>
      rw [foldl_clear_eq]
      simp [clearTimer, hh, hr]
    | some j =>
      rw [foldl_clear_eq]
      simp [clearTimer, hh, hr]

theorem recordGet_exists_pair {α : Type} (l : List (String × α)) (k : String) (v : α)
    (h : Js.recordGet l k = some v) : ∃ q ∈ l, q.2 = v := by
  rw [Js.recordGet] at h
  cases hf : l.find? fun p => p.1 == k with
  | none => rw [hf] at h; simp at h
  | some q =>
    rw [hf] at h
    simp at h
    exact ⟨q, List.mem_of_find?_eq_some hf, h⟩

theorem fireTimer_of_pending_nil (s : MState) (i : Nat) (h : s.pending = []) :
    fireTimer s i = s := by
  rw [fireTimer, h]
  rfl

/-- Claim C2: tearing the manager down from any reachable state — including
mid-reconnect, when a reconnect timeout is pending — cancels the heartbeat
interval, the pending reconnect timeout and every pending typing-expiry
timeout and closes the channel: no timer remains pending, and afterwards any
timer delivery is a no-op, so no heartbeat ping is sent, no previously
scheduled typing expiry fires, and no state mutation occurs. -/
theorem claim_C2 (s : MState) (hwf : wfRefs s = true) :
    (cleanup s).pending = [] ∧
    (cleanup s).wsOpen = false ∧
    (∀ i, fireTimer (cleanup s) i = cleanup s) := by
  have hpend : (cleanup s).pending = [] := by
    rw [cleanup_eq]
    rw [List.filter_eq_nil_iff]
    intro t ht
    rw [List.mem_filter, List.mem_filter] at ht
    obtain ⟨⟨htmem, h1⟩, h2⟩ := ht
    rw [wfRefs, List.all_eq_true] at hwf
    have htw := hwf t htmem
    cases hk : t.kind with
    | heartbeat =>
      rw [hk] at htw
      simp only [beq_iff_eq] at htw
      rw [htw] at h1
      simp at h1
    | reconnect =>
      rw [hk] at htw
      simp only [beq_iff_eq] at htw
      rw [htw] at h2
      simp at h2
    | typingExpiry key mId uId =>
      rw [hk] at htw
      simp only [beq_iff_eq] at htw
      obtain ⟨q, hq, hq2⟩ := recordGet_exists_pair _ _ _ htw
      simp only [List.all_eq_true, not_forall]
      refine ⟨q, hq, ?_⟩
      simp [hq2]
  refine ⟨hpend, ?_, ?_⟩
  · rw [cleanup_eq]
  · intro i
    exact fireTimer_of_pending_nil _ i hpend

theorem claim_C2_witness :
    (wfRefs ⟨[("u1", ⟨true, false⟩)], [("m1", [("u1", true)])], [("m1-u1", 2)],
      some 0, some 1,
      [⟨0, .heartbeat, 30000⟩, ⟨1, .reconnect, 6000⟩,
       ⟨2, .typingExpiry "m1-u1" "m1" "u1", 5000⟩],
      3, 3000, true, 5, 0⟩ = true) ∧
    (cleanup ⟨[("u1", ⟨true, false⟩)], [("m1", [("u1", true)])], [("m1-u1", 2)],
      some 0, some 1,
      [⟨0, .heartbeat, 30000⟩, ⟨1, .reconnect, 6000⟩,
       ⟨2, .typingExpiry "m1-u1" "m1" "u1", 5000⟩],
      3, 3000, true, 5, 0⟩).pending = [] := by
  constructor
  · decide
  · exact (claim_C2 _ (by decide)).1

theorem typingFlag_setTypingFlag_same (ts : List (String × List (String × Bool)))
    (mId uId : String) (b : Bool) :
    typingFlag (setTypingFlag ts mId uId b) uId mId = b := by
  rw [typingFlag, setTypingFlag, Js.recordGet_set_same]
  simp [Js.recordGet_set_same]

theorem processTypingStatus_true (s : MState) (m : TypingMsg)
    (ht : m.is_typing = true) :
    processTypingStatus s m = { s with
      typingStatuses := setTypingFlag s.typingStatuses m.match_id m.user_id true
      typingTimeouts :=
        Js.recordSet s.typingTimeouts (typingKey m.match_id m.user_id) s.nextId
      pending :=
        (match Js.recordGet s.typingTimeouts (typingKey m.match_id m.user_id) with
          | some tid => s.pending.filter fun t => t.id != tid
          | none => s.pending)
        ++ [⟨s.nextId,
             .typingExpiry (typingKey m.match_id m.user_id) m.match_id m.user_id,
             s.now + 3000⟩]
      nextId := s.nextId + 1 } := by
  rw [processTypingStatus]
  cases hket : Js.recordGet s.typingTimeouts (typingKey m.match_id m.user_id) with
  | some tid => simp [clearTimer, schedule, ht]
  | none => simp [schedule, ht]

/-- Claim C4: a `typing_status` push with typing=true sets the typing flag of
its (conversation, user) pair to true and leaves exactly one pending
typing-expiry timer for that pair — the freshly scheduled one, due a full
3000 ms after the push, any previously pending timer for the pair having been
cancelled and replaced rather than stacked (so a second push before expiry
restarts the full quiet period); when that timer fires with no further push,
the flag auto-clears to false and the timer handle is deleted. -/
theorem claim_C4 (s : MState) (m : TypingMsg)
    (hwf : wfRefs s = true) (hfresh : freshIds s = true)
    (ht : m.is_typing = true) :
    isUserTypingInMatch (processTypingStatus s m) m.user_id m.match_id = true ∧
    ((processTypingStatus s m).pending.filter fun t =>
        isTypingTimerFor t (typingKey m.match_id m.user_id))
      = [⟨s.nextId,
          .typingExpiry (typingKey m.match_id m.user_id) m.match_id m.user_id,
          s.now + 3000⟩] ∧
    Js.recordGet (processTypingStatus s m).typingTimeouts
      (typingKey m.match_id m.user_id) = some s.nextId ∧
    isUserTypingInMatch (fireTimer (processTypingStatus s m) s.nextId)
      m.user_id m.match_id = false ∧
    Js.recordGet (fireTimer (processTypingStatus s m) s.nextId).typingTimeouts
      (typingKey m.match_id m.user_id) = none := by
  rw [wfRefs, List.all_eq_true] at hwf
  rw [freshIds, List.all_eq_true] at hfresh
  have hnorm := processTypingStatus_true s m ht
  have hmemA : ∀ t : Timer,
      t ∈ (match Js.recordGet s.typingTimeouts (typingKey m.match_id m.user_id) with
        | some tid => s.pending.filter fun (t : Timer) => t.id != tid
        | none => s.pending) → t ∈ s.pending := by
    intro t htmem
    cases hket : Js.recordGet s.typingTimeouts (typingKey m.match_id m.user_id) with
    | some tid =>
      rw [hket] at htmem
      exact (List.mem_filter.mp htmem).1
    | none =>
      rw [hket] at htmem
      exact htmem
  have hA : (match Js.recordGet s.typingTimeouts (typingKey m.match_id m.user_id) with
      | some tid => s.pending.filter fun (t : Timer) => t.id != tid
      | none => s.pending).filter
        (fun t => isTypingTimerFor t (typingKey m.match_id m.user_id)) = [] := by
    rw [List.filter_eq_nil_iff]
    intro t htmem htt
    have hts : t ∈ s.pending := hmemA t htmem
    have htw := hwf t hts
    rw [isTypingTimerFor] at htt
    cases hk : t.kind with
    | heartbeat => rw [hk] at htt; simp at htt
    | reconnect => rw [hk] at htt; simp at htt
    | typingExpiry k' mId' uId' =>
      rw [hk] at htt htw
      simp only [beq_iff_eq] at htt htw
      rw [htt] at htw
      cases hket : Js.recordGet s.typingTimeouts (typingKey m.match_id m.user_id) with
      | some tid =>
        rw [hket] at htmem htw
        have hne := (List.mem_filter.mp htmem).2
        simp only [bne_iff_ne, ne_eq] at hne
        apply hne
        have := htw
        simp only [Option.some.injEq] at this
        exact this.symm
      | none =>
        rw [hket] at htw
        exact Option.noConfusion htw
  have hfindA : (match Js.recordGet s.typingTimeouts (typingKey m.match_id m.user_id) with
      | some tid => s.pending.filter fun (t : Timer) => t.id != tid
      | none => s.pending).find? (fun (t : Timer) => t.id == s.nextId) = none := by
    rw [List.find?_eq_none]
    intro t htmem
    have hts : t ∈ s.pending := hmemA t htmem
    have hlt := hfresh t hts
    simp only [decide_eq_true_eq] at hlt
    simp only [beq_iff_eq]
    omega
  have hfind : (processTypingStatus s m).pending.find? (fun (t : Timer) => t.id == s.nextId)
      = some ⟨s.nextId,
          .typingExpiry (typingKey m.match_id m.user_id) m.match_id m.user_id,
          s.now + 3000⟩ := by
    rw [hnorm]
    simp only [List.find?_append, hfindA, Option.none_or]
    simp [List.find?]
  refine ⟨?_, ?_, ?_, ?_, ?_⟩
  · rw [hnorm]
    simp [isUserTypingInMatch, typingFlag_setTypingFlag_same]
  · rw [hnorm]
    simp only [List.filter_append, hA, List.nil_append]
    simp [List.filter, isTypingTimerFor]
  · rw [hnorm]
    simp [Js.recordGet_set_same]
  · rw [fireTimer, hfind]
    simp only []
    rw [hnorm]
    simp [isUserTypingInMatch, typingFlag_setTypingFlag_same]
  · rw [fireTimer, hfind]
    simp only []
    rw [hnorm]
    simp [Js.recordGet_filter_ne]

theorem claim_C4_witness :
    (wfRefs midPeriodState = true) ∧
    (freshIds midPeriodState = true) ∧
    ((midPeriodState.pending.filter fun t => isTypingTimerFor t (typingKey "m1" "u1"))
      = [⟨0, .typingExpiry "m1-u1" "m1" "u1", 3000⟩]) ∧
    (((processTypingStatus midPeriodState ⟨"m1", "u1", true⟩).pending.filter fun t =>
        isTypingTimerFor t (typingKey "m1" "u1"))
      = [⟨1, .typingExpiry (typingKey "m1" "u1") "m1" "u1", 5000⟩]) ∧
    (isUserTypingInMatch (processTypingStatus midPeriodState ⟨"m1", "u1", true⟩)
      "u1" "m1" = true) := by
  refine ⟨by decide, by decide, by decide, ?_, ?_⟩
  · have h := (claim_C4 midPeriodState ⟨"m1", "u1", true⟩
      (by decide) (by decide) rfl).2.1
    rw [h]
    decide
  · exact (claim_C4 midPeriodState ⟨"m1", "u1", true⟩
      (by decide) (by decide) rfl).1

end Presence
